import Mathlib

/-!
Shallow embedding of the timeline-synchronized rendering and export pipeline
of the lyric-video studio repository (src/unnamed/part_009, component
`VideoPreview`).  Times are modelled as rationals (the source uses JS doubles
on millisecond values; all the arithmetic in the claims is exact).  The frame
compositor `drawFrame` is modelled as a pure function emitting the ordered
list of canvas drawing operations it performs.
-/

namespace Studio

/-- Model of an `HTMLImageElement` as consumed by `drawKenBurns`
(`image.complete`, `image.naturalWidth`, `image.naturalHeight`); `id`
stands for the identity of the underlying bitmap in emitted draw ops. -/
structure ImageHandle where
  id : Nat
  complete : Bool
  naturalWidth : ℚ
  naturalHeight : ℚ
deriving DecidableEq, Inhabited, Repr

/-- Source interface `LoadedImage { startTime, image }` (part_009 lines 30-33). -/
structure LoadedImage where
  startTime : ℚ
  image : ImageHandle
deriving DecidableEq, Inhabited, Repr

/-- Source type `Word { text, startTime }` (from `@/lib/utils`). -/
structure Word where
  text : String
  startTime : ℚ
deriving DecidableEq, Inhabited, Repr

/-- Source type `SyncedLyric { line, startTime, words }` (from `@/lib/utils`). -/
structure SyncedLyric where
  line : String
  startTime : ℚ
  words : List Word
deriving DecidableEq, Inhabited, Repr

/-- Source constant `FADE_DURATION_MS = 1000` (part_009 line 47). -/
def FADE_DURATION_MS : ℚ := 1000

/-- Source easing `easeInOutCubic = t => t < 0.5 ? 4*t*t*t : 1 - Math.pow(-2*t+2,3)/2`
(part_009 line 49). -/
def easeInOutCubic (t : ℚ) : ℚ :=
  if t < 1/2 then 4 * t ^ 3 else 1 - (-2 * t + 2) ^ 3 / 2

/-- JS `Math.round` on exact rationals: round half toward positive infinity. -/
def jsRound (q : ℚ) : ℚ := ((⌊q + 1/2⌋ : ℤ) : ℚ)

/-- Start time of the scene at index `i` (out-of-range reads give the default
record; all theorems carry explicit bounds). -/
def sceneStart (bgs : List LoadedImage) (i : Nat) : ℚ :=
  (bgs.getD i default).startTime

/-- Scene list sorted ascending by `startTime` (non-strict, duplicates allowed),
stated index-wise so it is decidable on concrete lists. -/
def ScenesSorted (bgs : List LoadedImage) : Prop :=
  ∀ j, j < bgs.length → ∀ i, i < j → sceneStart bgs i ≤ sceneStart bgs j

instance (bgs : List LoadedImage) : Decidable (ScenesSorted bgs) := by
  unfold ScenesSorted; exact inferInstance

/-- Model of the `findIndex` scene scan in `drawFrame` (part_009 lines 105-108):
first index `i` with `t >= bg.startTime && (!nextBg || t < nextBg.startTime)`. -/
def sceneFindIdx (t : ℚ) : List LoadedImage → Option Nat
  | [] => none
  | bg :: rest =>
    if bg.startTime ≤ t ∧ (rest = [] ∨ t < (rest.headD default).startTime)
    then some 0
    else (sceneFindIdx t rest).map (· + 1)

/-- Model of the scene selection including the `-1` fallback of part_009
line 109: if the scan fails and the list is non-empty, index 0 is used. -/
def currentSceneIndex (t : ℚ) (bgs : List LoadedImage) : Option Nat :=
  match sceneFindIdx t bgs with
  | some i => some i
  | none => if bgs.isEmpty then none else some 0

example : currentSceneIndex 45000 [⟨0, default⟩, ⟨30000, default⟩] = some 1 := by decide
example : currentSceneIndex (-5) [⟨0, default⟩, ⟨30000, default⟩] = some 0 := by decide
example : currentSceneIndex 5 [⟨0, default⟩, ⟨0, default⟩, ⟨10, default⟩] = some 1 := by decide

/-- Ken Burns animation progress (part_009 lines 87-89):
`sceneDuration > 0 ? Math.min(timeInScene / sceneDuration, 1) : 0`.
Note the source caps above at 1 but does not clamp below at 0. -/
def kbProgress (currentTimeMs sceneStartTime sceneEndTime : ℚ) : ℚ :=
  let sceneDuration := sceneEndTime - sceneStartTime
  let timeInScene := currentTimeMs - sceneStartTime
  if sceneDuration > 0 then min (timeInScene / sceneDuration) 1 else 0

/-- Ken Burns zoom factor `scale = 1.0 + 0.1 * easedProgress` (part_009 line 91). -/
def kbScale (currentTimeMs sceneStartTime sceneEndTime : ℚ) : ℚ :=
  1 + (1/10) * easeInOutCubic (kbProgress currentTimeMs sceneStartTime sceneEndTime)

/-- One canvas drawing operation emitted by the frame compositor.  The
constructors record every numeric/textual argument the source passes to the
corresponding `CanvasRenderingContext2D` call. -/
inductive DrawOp where
  | clearRect (x y w h : ℚ)
  | drawImage (img : Nat) (sx sy sw sh dx dy dw dh : ℚ)
  | setGlobalAlpha (a : ℚ)
  | fillRoundRect (x y w h r : ℚ)
  | fillTextShadow (text : String) (x y : ℚ)
  | fillText (text : String) (x y : ℚ)
deriving DecidableEq, Repr

/-- Model of `drawKenBurns` (part_009 lines 85-103): skip when the image is
not decoded, otherwise compute the eased pan/zoom source crop and emit the
single `drawImage` call. -/
def drawKenBurns (canvasW canvasH currentTimeMs : ℚ)
    (image : ImageHandle) (sceneStartTime sceneEndTime : ℚ) : List DrawOp :=
  if image.complete = false ∨ image.naturalWidth = 0 then []
  else
    let easedProgress := easeInOutCubic (kbProgress currentTimeMs sceneStartTime sceneEndTime)
    let scale := 1 + (1/10) * easedProgress
    let panX := 1/2 - (1/20) * easedProgress
    let panY := 1/2 - (1/20) * easedProgress
    let imgAspect := image.naturalWidth / image.naturalHeight
    let canvasAspect := canvasW / canvasH
    let sWidth := if imgAspect > canvasAspect then image.naturalHeight * canvasAspect else image.naturalWidth
    let sHeight := if imgAspect > canvasAspect then image.naturalHeight else image.naturalWidth / canvasAspect
    let focalWidth := sWidth / scale
    let focalHeight := sHeight / scale
    let sx := (image.naturalWidth - sWidth) / 2 + (sWidth - focalWidth) * panX
    let sy := (image.naturalHeight - sHeight) / 2 + (sHeight - focalHeight) * panY
    [DrawOp.drawImage image.id sx sy focalWidth focalHeight 0 0 canvasW canvasH]

/-- Crossfade alpha applied to the next scene (part_009 lines 118-119):
`Math.min(easeInOutCubic((t - (next.startTime - FADE)) / FADE), 1.0)`. -/
def fadeAlpha (currentTimeMs nextStartTime : ℚ) : ℚ :=
  min (easeInOutCubic ((currentTimeMs - (nextStartTime - FADE_DURATION_MS)) / FADE_DURATION_MS)) 1

/-- Whether `drawFrame` enters the crossfade-overlay branch (part_009 line 117):
a next scene exists and `currentTimeMs > nextScene.startTime - FADE_DURATION_MS`. -/
def OverlayDrawn (t : ℚ) (bgs : List LoadedImage) : Prop :=
  match currentSceneIndex t bgs with
  | none => False
  | some k =>
    match bgs[k+1]? with
    | none => False
    | some nx => t > nx.startTime - FADE_DURATION_MS

/-- Effective end time of a lyric line (part_009 lines 137-153): with words,
`maxWordTime + max(lineSpan/words.length, 500)` capped at the next line's
start; without words, the next line's start, else `startTime + 3000`. -/
def lyricEndTime (line : SyncedLyric) (nextLyric : Option SyncedLyric) : ℚ :=
  match line.words with
  | [] =>
    match nextLyric with
    | some nx => nx.startTime
    | none => line.startTime + 3000
  | w :: ws =>
    let maxWordTime := ws.foldl (fun acc x => max acc x.startTime) w.startTime
    let lineSpan := maxWordTime - line.startTime
    let endTime := maxWordTime + max (lineSpan / ((w :: ws).length : ℚ)) 500
    match nextLyric with
    | some nx => if nx.startTime < endTime then nx.startTime else endTime
    | none => endTime

/-- Model of the strict-SRT lyric scan of `drawFrame` (part_009 lines 133-161):
first index `i` with `line.startTime <= t && t < endTime`, else `none`. -/
def findActiveLyricIdx (t : ℚ) : List SyncedLyric → Option Nat
  | [] => none
  | l :: rest =>
    if l.startTime ≤ t ∧ t < lyricEndTime l rest.head?
    then some 0
    else (findActiveLyricIdx t rest).map (· + 1)

/-- Start time of the lyric line at index `i`. -/
def lyricStart (lyrics : List SyncedLyric) (i : Nat) : ℚ :=
  (lyrics.getD i default).startTime

/-- Effective end time of the lyric line at index `i` (its successor, when
any, is the `nextLyric` of the scan). -/
def lyricEnd (lyrics : List SyncedLyric) (i : Nat) : ℚ :=
  lyricEndTime (lyrics.getD i default) lyrics[i+1]?

/-- Lyric list sorted ascending by `startTime` (non-strict), index-wise. -/
def LyricsSorted (lyrics : List SyncedLyric) : Prop :=
  ∀ j, j < lyrics.length → ∀ i, i < j → lyricStart lyrics i ≤ lyricStart lyrics j

instance (lyrics : List SyncedLyric) : Decidable (LyricsSorted lyrics) := by
  unfold LyricsSorted; exact inferInstance

/-- Single-space join of a list of display lines, the observable the claim
about wrap-preservation compares against. -/
def joinWords : List String → String
  | [] => ""
  | [w] => w
  | w :: x :: ws => w ++ " " ++ joinWords (x :: ws)

/-- One iteration of the inline word-wrap loop of `drawFrame`
(part_009 lines 199-210); state is `(lines, currentLine)`; JS string
truthiness of `currentLine` is nonemptiness. -/
def wrapStep (measure : String → ℚ) (maxWidth : ℚ)
    (st : List String × String) (word : String) : List String × String :=
  let testLine := if st.2 ≠ "" then st.2 ++ " " ++ word else word
  if measure testLine > maxWidth ∧ st.2 ≠ "" then (st.1 ++ [st.2], word)
  else (st.1, testLine)

/-- The inline word wrap of `drawFrame` (part_009 lines 195-215), including
the trailing `if (currentLine) lines.push(currentLine)`.  `measure` stands
for `ctx.measureText(·).width` under the font set at line 186. -/
def wrapWords (measure : String → ℚ) (maxWidth : ℚ) (words : List String) : List String :=
  let st := words.foldl (wrapStep measure maxWidth) ([], "")
  if st.2 ≠ "" then st.1 ++ [st.2] else st.1

/-- Word-sequence view of `wrapStep`: the same loop tracking, for each display
line, the list of words it was built from (the string of a state is the
`joinWords` of its word list).  Used only to state word preservation. -/
def wrapStepSeq (measure : String → ℚ) (maxWidth : ℚ)
    (st : List (List String) × List String) (word : String) :
    List (List String) × List String :=
  let testWords := if joinWords st.2 ≠ "" then st.2 ++ [word] else [word]
  if measure (joinWords testWords) > maxWidth ∧ joinWords st.2 ≠ "" then (st.1 ++ [st.2], [word])
  else (st.1, testWords)

/-- Word-sequence view of `wrapWords`. -/
def wrapWordsSeq (measure : String → ℚ) (maxWidth : ℚ) (words : List String) :
    List (List String) :=
  let st := words.foldl (wrapStepSeq measure maxWidth) ([], [])
  if joinWords st.2 ≠ "" then st.1 ++ [st.2] else st.1

/-- Model of `drawFrame` (part_009 lines 73-263) as the ordered list of
drawing operations: clear, active-scene Ken Burns draw, crossfade overlay
within the fade window, then the active lyric's backing box and text lines.
`measure` abstracts `ctx.measureText`; `wrappedLinesCache` is the supplied
cache parameter, which this revision of the source never reads. -/
def drawFrame (canvasW canvasH currentTimeMs durationSeconds : ℚ)
    (backgroundImages : List LoadedImage) (syncedLyrics : List SyncedLyric)
    (measure : String → ℚ) (wrappedLinesCache : List (String × List String)) :
    List DrawOp :=
  let _ := wrappedLinesCache
  let bgOps : List DrawOp :=
    match currentSceneIndex currentTimeMs backgroundImages with
    | none => []
    | some k =>
      let currentScene := backgroundImages.getD k default
      let next? := backgroundImages[k+1]?
      let sceneEndTime :=
        match next? with
        | some nx => nx.startTime
        | none => durationSeconds * 1000
      let baseOps := drawKenBurns canvasW canvasH currentTimeMs currentScene.image
        currentScene.startTime sceneEndTime
      let fadeOps :=
        match next? with
        | some nextScene =>
          if currentTimeMs > nextScene.startTime - FADE_DURATION_MS then
            let nextSceneEndTime :=
              match backgroundImages[k+2]? with
              | some s2 => s2.startTime
              | none => durationSeconds * 1000
            DrawOp.setGlobalAlpha (fadeAlpha currentTimeMs nextScene.startTime)
              :: (drawKenBurns canvasW canvasH currentTimeMs nextScene.image
                    nextScene.startTime nextSceneEndTime
                  ++ [DrawOp.setGlobalAlpha 1])
          else []
        | none => []
      baseOps ++ fadeOps
  let lyricOps : List DrawOp :=
    match (findActiveLyricIdx currentTimeMs syncedLyrics).map
        (fun i => syncedLyrics.getD i default) with
    | none => []
    | some currentLyric =>
      let baseFontSize : ℚ := if canvasW ≤ 1280 then 44 else jsRound (canvasW * 34/1000)
      let lineHeight := jsRound (baseFontSize * 118/100)
      let padding := jsRound (canvasW * 15/1000)
      let maxWidth := canvasW * 85/100
      let lines := wrapWords measure maxWidth (currentLyric.line.splitOn " ")
      let totalTextHeight := (lines.length : ℚ) * lineHeight
      let startY := canvasH * 85/100 - totalTextHeight / 2
      let maxLineWidth := lines.foldl (fun mx line => max mx (measure line)) 0
      let borderRadius := jsRound (canvasW * 8/1000)
      let boxOp := DrawOp.fillRoundRect ((canvasW - maxLineWidth) / 2 - padding)
        (startY - lineHeight / 2 - padding) (maxLineWidth + padding * 2)
        (totalTextHeight + padding * 2) borderRadius
      let textOps := lines.enum.flatMap (fun p =>
        let lineY := startY + (p.1 : ℚ) * lineHeight
        [DrawOp.fillTextShadow p.2 (canvasW / 2) lineY,
         DrawOp.fillText p.2 (canvasW / 2) lineY])
      boxOp :: textOps
  DrawOp.clearRect 0 0 canvasW canvasH :: (bgOps ++ lyricOps)

/-- MediaRecorder state as observed by `handleExport` (`recorder.state`). -/
inductive RecState where
  | inactive
  | recording
deriving DecidableEq, Repr

/-- Observable state of one export job (part_009, `handleExport` /
`handleCancelExport`): the recorder, the number of queued `stop` events, how
often `cleanup` ran, how often the completion outcome (`Export Complete!`
toast plus blob download, lines 609-630) fired, how often the cancellation
toast (lines 758-762) fired, and the resource flags `cleanup` tears down. -/
structure ExportState where
  recorder : RecState
  pendingOnStop : Nat
  cleanupCount : Nat
  completeFired : Nat
  cancelToastCount : Nat
  abortActive : Bool
  audioInDom : Bool
  ctxClosed : Bool
deriving DecidableEq, Repr

/-- Model of `cleanup` (part_009 lines 464-483): close the export audio
context, remove the export audio element from the DOM, reset export state. -/
def cleanup (s : ExportState) : ExportState :=
  { s with ctxClosed := true, audioInDom := false, abortActive := false,
           cleanupCount := s.cleanupCount + 1 }

/-- `MediaRecorder.stop()` as invoked at line 598: the recorder leaves the
`recording` state and a `stop` event is queued, whose handler
(`recorder.onstop`, lines 609-630) runs afterwards. -/
def recorderStop (s : ExportState) : ExportState :=
  { s with recorder := .inactive, pendingOnStop := s.pendingOnStop + 1 }

/-- Model of the abort-signal listener (part_009 lines 596-601): stop the
recorder if it is recording, then run `cleanup`. -/
def abortListener (s : ExportState) : ExportState :=
  cleanup (if s.recorder = RecState.recording then recorderStop s else s)

/-- Model of `recorder.onstop` (part_009 lines 609-630): assemble the blob,
trigger the download, fire the `Export Complete!` toast, then run `cleanup`. -/
def onStopHandler (s : ExportState) : ExportState :=
  cleanup { s with completeFired := s.completeFired + 1,
                   pendingOnStop := s.pendingOnStop - 1 }

/-- Model of `handleCancelExport` (part_009 lines 756-764): if an abort
controller is live, fire its abort listeners and show the cancel toast. -/
def handleCancelExport (s : ExportState) : ExportState :=
  if s.abortActive then
    let s1 := abortListener s
    { s1 with cancelToastCount := s1.cancelToastCount + 1 }
  else s

/-- State of a job mid-recording: recorder running, abort controller live,
export audio element attached, export audio context open. -/
def recordingState : ExportState :=
  ⟨RecState.recording, 0, 0, 0, 0, true, true, false⟩

/-- The cancel-mid-recording run of the export machine: the cancel handler
fires, then the `stop` event queued by `recorder.stop()` is dispatched. -/
def cancelMidRecordingRun : ExportState :=
  onStopHandler (handleCancelExport recordingState)

example : cancelMidRecordingRun.completeFired = 1 := by decide
example : cancelMidRecordingRun.cleanupCount = 2 := by decide
example : cancelMidRecordingRun.cancelToastCount = 1 := by decide
example :
    lyricEndTime ⟨"Hello world", 1000, [⟨"Hello", 1000⟩, ⟨"world", 1400⟩]⟩
      (some ⟨"next", 5000, []⟩) = 1900 := by
  norm_num [lyricEndTime, max_def, min_def]
example : lyricEndTime ⟨"", 0, []⟩ (some ⟨"n", 10000, []⟩) = 10000 := by
  norm_num [lyricEndTime]
example : wrapWords (fun _ => 0) 0 ["", "x"] = ["x"] := by decide
example : kbProgress 9500 10000 20000 = -(1/20) := by
  norm_num [kbProgress, min_def]
example : kbScale 9500 10000 20000 = 19999/20000 := by
  norm_num [kbScale, kbProgress, easeInOutCubic, min_def]

lemma sceneStart_cons_zero (bg : LoadedImage) (rest : List LoadedImage) :
    sceneStart (bg :: rest) 0 = bg.startTime := rfl

lemma sceneStart_cons_succ (bg : LoadedImage) (rest : List LoadedImage) (i : Nat) :
    sceneStart (bg :: rest) (i + 1) = sceneStart rest i := rfl

lemma scenesSorted_tail {bg : LoadedImage} {rest : List LoadedImage}
    (h : ScenesSorted (bg :: rest)) : ScenesSorted rest := by
  intro j hj i hij
  have := h (j + 1) (by simp only [List.length_cons]; omega) (i + 1) (by omega)
  simpa [sceneStart_cons_succ] using this

lemma sceneFindIdx_cons (t : ℚ) (bg : LoadedImage) (rest : List LoadedImage) :
    sceneFindIdx t (bg :: rest) =
      if bg.startTime ≤ t ∧ (rest = [] ∨ t < (rest.headD default).startTime)
      then some 0 else (sceneFindIdx t rest).map (· + 1) := rfl

/-- On a sorted non-empty list whose first start is at most `t`, the source
`findIndex` scan returns exactly the last index whose start is at most `t`. -/
lemma sceneFindIdx_last (t : ℚ) :
    ∀ (bgs : List LoadedImage), ScenesSorted bgs → sceneStart bgs 0 ≤ t → bgs ≠ [] →
      ∃ k, sceneFindIdx t bgs = some k ∧ k < bgs.length ∧ sceneStart bgs k ≤ t ∧
        ∀ m, m < bgs.length → sceneStart bgs m ≤ t → m ≤ k := by
  intro bgs
  induction bgs with
  | nil => intro _ _ hne; exact absurd rfl hne
  | cons bg rest ih =>
    intro hs h0 _
    cases rest with
    | nil =>
      refine ⟨0, ?_, by simp, h0, ?_⟩
      · have hc : bg.startTime ≤ t ∧
            (([] : List LoadedImage) = [] ∨ t < (([] : List LoadedImage).headD default).startTime) :=
          ⟨h0, Or.inl rfl⟩
        rw [sceneFindIdx_cons, if_pos hc]
      · intro m hm _
        simp only [List.length_cons, List.length_nil] at hm
        omega
    | cons nx rest2 =>
      by_cases hlt : t < nx.startTime
      · refine ⟨0, ?_, by simp, h0, ?_⟩
        · have hc : bg.startTime ≤ t ∧
              (nx :: rest2 = [] ∨ t < ((nx :: rest2).headD default).startTime) :=
            ⟨h0, Or.inr hlt⟩
          rw [sceneFindIdx_cons, if_pos hc]
        · intro m hm hmt
          by_contra hcon
          have hm1 : 1 ≤ m := by omega
          have hnle : nx.startTime ≤ sceneStart (bg :: nx :: rest2) m := by
            rcases Nat.eq_or_lt_of_le hm1 with h1 | h1
            · rw [← h1]; exact le_refl _
            · exact hs m hm 1 h1
          linarith
      · have hc : ¬ (bg.startTime ≤ t ∧
            (nx :: rest2 = [] ∨ t < ((nx :: rest2).headD default).startTime)) := by
          rintro ⟨_, hor⟩
          rcases hor with he | hl
          · exact List.cons_ne_nil nx rest2 he
          · exact hlt hl
        have h0' : sceneStart (nx :: rest2) 0 ≤ t := not_lt.mp hlt
        obtain ⟨k, hk, hklen, hkle, hkmax⟩ :=
          ih (scenesSorted_tail hs) h0' (List.cons_ne_nil nx rest2)
        refine ⟨k + 1, ?_, ?_, hkle, ?_⟩
        · rw [sceneFindIdx_cons, if_neg hc, hk]; rfl
        · simp only [List.length_cons] at hklen ⊢; omega
        · intro m hm hmt
          cases m with
          | zero => omega
          | succ m2 =>
            have : m2 ≤ k := hkmax m2 (by simpa [List.length_cons] using hm) hmt
            omega

/-- When `t` precedes the first scene's start on a sorted list, the scan fails. -/
lemma sceneFindIdx_none_of_lt (t : ℚ) :
    ∀ (bgs : List LoadedImage), ScenesSorted bgs → t < sceneStart bgs 0 →
      sceneFindIdx t bgs = none := by
  intro bgs
  induction bgs with
  | nil => intro _ _; rfl
  | cons bg rest ih =>
    intro hs h0
    have hc : ¬ (bg.startTime ≤ t ∧
        (rest = [] ∨ t < (rest.headD default).startTime)) := by
      rintro ⟨h1, _⟩
      exact absurd h1 (not_le.mpr h0)
    cases rest with
    | nil => rw [sceneFindIdx_cons, if_neg hc]; rfl
    | cons nx rest2 =>
      have h1 : t < sceneStart (nx :: rest2) 0 := by
        have := hs 1 (by simp only [List.length_cons]; omega) 0 (by omega)
        calc t < sceneStart (bg :: nx :: rest2) 0 := h0
        _ ≤ sceneStart (bg :: nx :: rest2) 1 := this
        _ = sceneStart (nx :: rest2) 0 := rfl
      rw [sceneFindIdx_cons, if_neg hc, ih (scenesSorted_tail hs) h1]; rfl

/-- Basic facts about a successful `findIndex` scan: in-range, started, and
before the next scene's start when one exists (no sortedness needed). -/
lemma sceneFindIdx_some_spec (t : ℚ) :
    ∀ (bgs : List LoadedImage) (k : Nat), sceneFindIdx t bgs = some k →
      k < bgs.length ∧ sceneStart bgs k ≤ t ∧
        (k + 1 < bgs.length → t < sceneStart bgs (k + 1)) := by
  intro bgs
  induction bgs with
  | nil => intro k h; simp [sceneFindIdx] at h
  | cons bg rest ih =>
    intro k h
    by_cases hc : bg.startTime ≤ t ∧ (rest = [] ∨ t < (rest.headD default).startTime)
    · simp only [sceneFindIdx, if_pos hc] at h
      obtain rfl : (0 : Nat) = k := Option.some.inj h
      refine ⟨by simp, hc.1, ?_⟩
      intro h1
      rcases hc.2 with he | hl
      · subst he; simp at h1
      · cases rest with
        | nil => simp at h1
        | cons nx rest2 => exact hl
    · simp only [sceneFindIdx, if_neg hc] at h
      cases hm : sceneFindIdx t rest with
      | none => rw [hm] at h; simp at h
      | some k2 =>
        rw [hm] at h
        simp only [Option.map_some'] at h
        obtain rfl : k2 + 1 = k := Option.some.inj h
        obtain ⟨hl, hle, hnext⟩ := ih k2 hm
        refine ⟨by simp only [List.length_cons]; omega, hle, ?_⟩
        intro hh
        exact hnext (by simpa [List.length_cons] using hh)

/-- Two decoded scenes at 0 ms and 30000 ms (spec Scenario A shape). -/
def twoScenes : List LoadedImage :=
  [⟨0, ⟨1, true, 800, 600⟩⟩, ⟨30000, ⟨2, true, 800, 600⟩⟩]

/-- Three decoded scenes with duplicate `startTime` 0 at indices 0 and 1. -/
def dupScenes : List LoadedImage :=
  [⟨0, ⟨1, true, 800, 600⟩⟩, ⟨0, ⟨2, true, 800, 600⟩⟩, ⟨10, ⟨3, true, 800, 600⟩⟩]

/-- C1: for every time `t` and every non-empty scene list sorted ascending by
`startTime`, the scene lookup in `drawFrame` selects a scene whose
`startTime ≤ t` — the last such scene — or defaults to the first scene when
`t` precedes every scene's `startTime`. -/
theorem scene_lookup_last_or_first (t : ℚ) (bgs : List LoadedImage)
    (hne : bgs ≠ []) (hs : ScenesSorted bgs) :
    ∃ k, currentSceneIndex t bgs = some k ∧ k < bgs.length ∧
      ((sceneStart bgs k ≤ t ∧ ∀ m, m < bgs.length → sceneStart bgs m ≤ t → m ≤ k) ∨
       (k = 0 ∧ t < sceneStart bgs 0)) := by
  by_cases h0 : sceneStart bgs 0 ≤ t
  · obtain ⟨k, hk, hlen, hle, hmax⟩ := sceneFindIdx_last t bgs hs h0 hne
    refine ⟨k, ?_, hlen, Or.inl ⟨hle, hmax⟩⟩
    unfold currentSceneIndex
    rw [hk]
  · have hn := sceneFindIdx_none_of_lt t bgs hs (not_le.mp h0)
    refine ⟨0, ?_, ?_, Or.inr ⟨rfl, not_le.mp h0⟩⟩
    · unfold currentSceneIndex
      rw [hn]
      cases bgs with
      | nil => exact absurd rfl hne
      | cons b r => rfl
    · cases bgs with
      | nil => exact absurd rfl hne
      | cons b r => simp

/-- Witness for C1: scenes at 0 and 30000, t = 45000 (the second scene, the
last one started, is selected). -/
theorem scene_lookup_last_or_first_witness :
    ∃ k, currentSceneIndex 45000 twoScenes = some k ∧ k < twoScenes.length ∧
      ((sceneStart twoScenes k ≤ 45000 ∧
        ∀ m, m < twoScenes.length → sceneStart twoScenes m ≤ 45000 → m ≤ k) ∨
       (k = 0 ∧ (45000 : ℚ) < sceneStart twoScenes 0)) :=
  scene_lookup_last_or_first 45000 twoScenes (by decide) (by decide)

/-- C9 counterexample: with duplicate `startTime` 0 at indices 0 and 1 and
t = 5 inside the duplicates' window, the code activates index 1 — the last
duplicate in input order — and not the first as the claim states. -/
theorem scene_duplicate_first_wins_cex :
    currentSceneIndex 5 dupScenes = some 1 ∧ currentSceneIndex 5 dupScenes ≠ some 0 := by
  decide

/-- C9 amended: for every sorted scene list containing two or more scenes
with equal `startTime`, and every `t` at or after that `startTime` and before
any later scene's `startTime`, the scene selected for activation is the LAST
of the duplicates in input order. -/
theorem scene_duplicate_last_wins (t : ℚ) (bgs : List LoadedImage)
    (hs : ScenesSorted bgs) (i j : Nat) (hij : i < j) (hj : j < bgs.length)
    (heq : sceneStart bgs i = sceneStart bgs j) (hjt : sceneStart bgs j ≤ t)
    (hafter : ∀ m, m < bgs.length → j < m → t < sceneStart bgs m) :
    currentSceneIndex t bgs = some j := by
  have hne : bgs ≠ [] := by
    intro h; subst h; simp at hj
  have h0 : sceneStart bgs 0 ≤ t := by
    have hj0 : 0 < j := by omega
    exact le_trans (hs j hj 0 hj0) hjt
  obtain ⟨k, hk, hlen, hle, hmax⟩ := sceneFindIdx_last t bgs hs h0 hne
  have hjk : j ≤ k := hmax j hj hjt
  have hkj : k ≤ j := by
    by_contra hcon
    push_neg at hcon
    exact absurd hle (not_le.mpr (hafter k hlen hcon))
  have hkeq : k = j := le_antisymm hkj hjk
  subst hkeq
  unfold currentSceneIndex
  rw [hk]

/-- Witness for the amended C9 on the duplicate-start list at t = 5. -/
theorem scene_duplicate_last_wins_witness :
    currentSceneIndex 5 dupScenes = some 1 :=
  scene_duplicate_last_wins 5 dupScenes (by decide) 0 1 (by decide) (by decide)
    (by decide) (by decide) (by decide)

lemma lyricStart_cons_zero (l : SyncedLyric) (rest : List SyncedLyric) :
    lyricStart (l :: rest) 0 = l.startTime := rfl

lemma lyricStart_cons_succ (l : SyncedLyric) (rest : List SyncedLyric) (i : Nat) :
    lyricStart (l :: rest) (i + 1) = lyricStart rest i := rfl

lemma lyricEnd_cons_zero (l : SyncedLyric) (rest : List SyncedLyric) :
    lyricEnd (l :: rest) 0 = lyricEndTime l rest.head? := by
  unfold lyricEnd
  rw [List.getElem?_cons_succ]
  cases rest with
  | nil => rfl
  | cons r rs =>
    rw [List.getElem?_cons_zero]
    rfl

lemma lyricEnd_cons_succ (l : SyncedLyric) (rest : List SyncedLyric) (i : Nat) :
    lyricEnd (l :: rest) (i + 1) = lyricEnd rest i := by
  unfold lyricEnd
  rw [List.getElem?_cons_succ]
  rfl

lemma lyricsSorted_tail {l : SyncedLyric} {rest : List SyncedLyric}
    (h : LyricsSorted (l :: rest)) : LyricsSorted rest := by
  intro j hj i hij
  have := h (j + 1) (by simp only [List.length_cons]; omega) (i + 1) (by omega)
  simpa [lyricStart_cons_succ] using this

lemma findActiveLyricIdx_cons (t : ℚ) (l : SyncedLyric) (rest : List SyncedLyric) :
    findActiveLyricIdx t (l :: rest) =
      if l.startTime ≤ t ∧ t < lyricEndTime l rest.head?
      then some 0 else (findActiveLyricIdx t rest).map (· + 1) := rfl

/-- Effective end times never extend past the next line's start: the capped
word-derived end and the both fallbacks are bounded by the successor's
`startTime` whenever a successor exists. -/
lemma lyricEnd_le_next (lyrics : List SyncedLyric) (i : Nat)
    (h : i + 1 < lyrics.length) :
    lyricEnd lyrics i ≤ lyricStart lyrics (i + 1) := by
  have hnx : lyrics[i+1]? = some (lyrics.getD (i + 1) default) := by
    rw [List.getElem?_eq_getElem h]
    congr 1
    rw [List.getD_eq_getElem?_getD, List.getElem?_eq_getElem h]
    rfl
  unfold lyricEnd lyricEndTime
  rw [hnx]
  cases hw : (lyrics.getD i default).words with
  | nil => exact le_refl _
  | cons w ws =>
    dsimp only
    split
    · exact le_refl _
    · next hnl => exact le_of_not_lt hnl

/-- On a sorted lyric list, the strict-SRT scan of `drawFrame` returns index
`i` exactly when `t` lies in the half-open window of line `i`. -/
lemma findActiveLyricIdx_iff (t : ℚ) :
    ∀ (lyrics : List SyncedLyric), LyricsSorted lyrics → ∀ i, i < lyrics.length →
      ((lyricStart lyrics i ≤ t ∧ t < lyricEnd lyrics i) ↔
        findActiveLyricIdx t lyrics = some i) := by
  intro lyrics
  induction lyrics with
  | nil => intro _ i hi; simp at hi
  | cons l rest ih =>
    intro hs i hi
    cases i with
    | zero =>
      constructor
      · rintro ⟨h1, h2⟩
        rw [lyricEnd_cons_zero] at h2
        rw [findActiveLyricIdx_cons, if_pos ⟨h1, h2⟩]
      · intro hres
        by_cases hc : l.startTime ≤ t ∧ t < lyricEndTime l rest.head?
        · exact ⟨hc.1, by rw [lyricEnd_cons_zero]; exact hc.2⟩
        · exfalso
          rw [findActiveLyricIdx_cons, if_neg hc] at hres
          cases hm : findActiveLyricIdx t rest with
          | none => rw [hm] at hres; simp at hres
          | some k => rw [hm] at hres; simp at hres
    | succ j =>
      have hlen : j < rest.length := by
        simp only [List.length_cons] at hi; omega
      have ihj := ih (lyricsSorted_tail hs) j hlen
      constructor
      · rintro ⟨h1, h2⟩
        rw [lyricStart_cons_succ] at h1
        rw [lyricEnd_cons_succ] at h2
        have hr := ihj.mp ⟨h1, h2⟩
        have hcf : ¬ (l.startTime ≤ t ∧ t < lyricEndTime l rest.head?) := by
          rintro ⟨hh1, hh2⟩
          have e0 : lyricEnd (l :: rest) 0 ≤ lyricStart (l :: rest) 1 :=
            lyricEnd_le_next (l :: rest) 0 (by simp only [List.length_cons]; omega)
          rw [lyricEnd_cons_zero] at e0
          have s1 : lyricStart (l :: rest) 1 ≤ lyricStart (l :: rest) (j + 1) := by
            rcases Nat.lt_or_ge 1 (j + 1) with hlt | hge
            · exact hs (j + 1) hi 1 hlt
            · have hj0 : j = 0 := by omega
              subst hj0; exact le_refl _
          rw [lyricStart_cons_succ l rest 0, lyricStart_cons_succ l rest j] at s1
          rw [lyricStart_cons_succ l rest 0] at e0
          linarith
        rw [findActiveLyricIdx_cons, if_neg hcf, hr]
        rfl
      · intro hres
        have hcf : ¬ (l.startTime ≤ t ∧ t < lyricEndTime l rest.head?) := by
          intro hc
          rw [findActiveLyricIdx_cons, if_pos hc] at hres
          simp at hres
        rw [findActiveLyricIdx_cons, if_neg hcf] at hres
        cases hm : findActiveLyricIdx t rest with
        | none => rw [hm] at hres; simp at hres
        | some k =>
          rw [hm] at hres
          simp only [Option.map_some'] at hres
          have hkj : k = j := by
            have := Option.some.inj hres; omega
          subst hkj
          obtain ⟨h1, h2⟩ := ihj.mpr hm
          exact ⟨by rw [lyricStart_cons_succ]; exact h1,
                 by rw [lyricEnd_cons_succ]; exact h2⟩

/-- Spec Scenario B: "Hello world" at 1000 with words at 1000/1400, next
line at 5000. -/
def lyricsB : List SyncedLyric :=
  [⟨"Hello world", 1000, [⟨"Hello", 1000⟩, ⟨"world", 1400⟩]⟩,
   ⟨"next line", 5000, []⟩]

/-- An empty-words line at 0 followed by a line at 10000. -/
def emptyWordLyrics : List SyncedLyric :=
  [⟨"first", 0, []⟩, ⟨"next", 10000, []⟩]

example : findActiveLyricIdx 999 lyricsB = none := by
  norm_num [findActiveLyricIdx, lyricsB, lyricEndTime, max_def, min_def]

/-- C2: on a sorted lyric list the lookup returns the unique line whose
half-open window [startTime, effectiveEnd) contains `t` — index `i` is
returned exactly when `t` lies in line `i`'s window, hence `none` exactly
when no window contains `t`. -/
theorem lyric_lookup_window_iff (t : ℚ) (lyrics : List SyncedLyric)
    (hs : LyricsSorted lyrics) (i : Nat) (hi : i < lyrics.length) :
    ((lyricStart lyrics i ≤ t ∧ t < lyricEnd lyrics i) ↔
      findActiveLyricIdx t lyrics = some i) :=
  findActiveLyricIdx_iff t lyrics hs i hi

/-- Witness for C2 on Scenario B at t = 1000: the line starting at 1000 is
the active lyric (and at 999, outside every window, the lookup is `none`). -/
theorem lyric_lookup_window_iff_witness :
    LyricsSorted lyricsB ∧ findActiveLyricIdx 1000 lyricsB = some 0 :=
  ⟨by decide,
   (lyric_lookup_window_iff 1000 lyricsB (by decide) 0 (by decide)).mp
     (by norm_num [lyricStart, lyricEnd, lyricEndTime, lyricsB, List.getD,
        List.getElem?_cons_succ, List.getElem?_cons_zero, max_def, min_def])⟩

/-- C3: for adjacent lyric lines A, B with A.startTime < B.startTime, the
effective end computed for A is at most B.startTime, so no two lines are
simultaneously active. -/
theorem lyric_no_overlap (lyrics : List SyncedLyric) (i : Nat)
    (h : i + 1 < lyrics.length)
    (_hlt : lyricStart lyrics i < lyricStart lyrics (i + 1)) :
    lyricEnd lyrics i ≤ lyricStart lyrics (i + 1) :=
  lyricEnd_le_next lyrics i h

/-- Witness for C3 on Scenario B: effectiveEnd of line 0 is at most 5000. -/
theorem lyric_no_overlap_witness :
    lyricEnd lyricsB 0 ≤ lyricStart lyricsB 1 :=
  lyric_no_overlap lyricsB 0 (by decide) (by decide)

/-- C6 counterexample: the empty-words line at 0 with the next line at 10000
gets effective end 10000, not min(0 + 3000, 10000) = 3000 as the claim says;
at t = 5000 the code still shows it. -/
theorem lyric_empty_words_capped_cex :
    lyricEnd emptyWordLyrics 0 = 10000 ∧
    lyricEnd emptyWordLyrics 0 ≠
      min (lyricStart emptyWordLyrics 0 + 3000) (lyricStart emptyWordLyrics 1) ∧
    findActiveLyricIdx 5000 emptyWordLyrics = some 0 := by
  refine ⟨?_, ?_, ?_⟩ <;>
    norm_num [lyricEnd, lyricStart, lyricEndTime, emptyWordLyrics,
      findActiveLyricIdx, List.getD, min_def]

/-- C6 amended: an empty-words line is active on [startTime, next.startTime)
when a next line exists — the 3000 ms default is not applied then — and on
[startTime, startTime + 3000) exactly when it is the last line. -/
theorem lyric_empty_words_window (t : ℚ) (lyrics : List SyncedLyric)
    (hs : LyricsSorted lyrics) (i : Nat) (hi : i < lyrics.length)
    (hw : (lyrics.getD i default).words = []) :
    (findActiveLyricIdx t lyrics = some i ↔
      (lyricStart lyrics i ≤ t ∧
        t < (match lyrics[i+1]? with
             | some nx => nx.startTime
             | none => lyricStart lyrics i + 3000))) := by
  have he : lyricEnd lyrics i =
      (match lyrics[i+1]? with
       | some nx => nx.startTime
       | none => lyricStart lyrics i + 3000) := by
    unfold lyricEnd lyricEndTime lyricStart
    rw [hw]
  rw [← he]
  exact (findActiveLyricIdx_iff t lyrics hs i hi).symm

/-- Witness for the amended C6: the empty-words line is still active at
t = 5000, past the 3000 ms default, because the next line starts at 10000. -/
theorem lyric_empty_words_window_witness :
    findActiveLyricIdx 5000 emptyWordLyrics = some 0 :=
  (lyric_empty_words_window 5000 emptyWordLyrics (by decide) 0 (by decide)
      (by decide)).mpr
    (by norm_num [lyricStart, emptyWordLyrics, List.getD,
       List.getElem?_cons_succ, List.getElem?_cons_zero])

lemma cube_le_cube {a b : ℚ} (h : a ≤ b) : a ^ 3 ≤ b ^ 3 := by
  nlinarith [sq_nonneg (a + b), sq_nonneg (a - b), sq_nonneg a, sq_nonneg b,
    mul_nonneg (sub_nonneg.mpr h) (sq_nonneg (a + b)),
    mul_nonneg (sub_nonneg.mpr h) (sq_nonneg a),
    mul_nonneg (sub_nonneg.mpr h) (sq_nonneg b)]

/-- The cubic ease-in-out curve is non-decreasing on all of ℚ. -/
lemma easeInOutCubic_mono {a b : ℚ} (h : a ≤ b) :
    easeInOutCubic a ≤ easeInOutCubic b := by
  unfold easeInOutCubic
  split_ifs with ha hb hb
  · have := cube_le_cube h
    linarith
  · have h1 : a ^ 3 ≤ (1/2 : ℚ) ^ 3 := cube_le_cube (le_of_lt ha)
    have h2 : (-2 * b + 2) ^ 3 ≤ 1 := by
      have hc : -2 * b + 2 ≤ 1 := by linarith
      calc (-2 * b + 2) ^ 3 ≤ 1 ^ 3 := cube_le_cube hc
      _ = 1 := one_pow 3
    norm_num at h1
    linarith
  · exact absurd (lt_of_le_of_lt h hb) ha
  · have hc : -2 * b + 2 ≤ -2 * a + 2 := by linarith
    have := cube_le_cube hc
    linarith

/-- Crossfade alpha is monotone in time within (and across) the window. -/
lemma fadeAlpha_mono {s t1 t2 : ℚ} (h : t1 ≤ t2) :
    fadeAlpha t1 s ≤ fadeAlpha t2 s := by
  unfold fadeAlpha
  refine min_le_min (easeInOutCubic_mono ?_) le_rfl
  have hpos : (0 : ℚ) < FADE_DURATION_MS := by norm_num [FADE_DURATION_MS]
  exact (div_le_div_iff_of_pos_right hpos).mpr (by linarith)

/-- Crossfade alpha is exactly 0 at the window start `next.startTime - FADE`. -/
lemma fadeAlpha_zero_at_start (s : ℚ) : fadeAlpha (s - FADE_DURATION_MS) s = 0 := by
  unfold fadeAlpha
  rw [show (s - FADE_DURATION_MS - (s - FADE_DURATION_MS)) / FADE_DURATION_MS = 0 by
    rw [sub_self]; exact zero_div _]
  norm_num [easeInOutCubic]

/-- Crossfade alpha is exactly 1 at the window end `next.startTime`. -/
lemma fadeAlpha_one_at_end (s : ℚ) : fadeAlpha s s = 1 := by
  unfold fadeAlpha
  rw [show (s - (s - FADE_DURATION_MS)) / FADE_DURATION_MS = 1 by
    unfold FADE_DURATION_MS; ring]
  norm_num [easeInOutCubic]

/-- Whenever the crossfade-overlay branch runs on a sorted scene list, the
time lies strictly inside the open fade window before the next scene. -/
lemma overlayDrawn_in_window (t : ℚ) (bgs : List LoadedImage)
    (hs : ScenesSorted bgs) (h : OverlayDrawn t bgs) :
    ∃ k nx, currentSceneIndex t bgs = some k ∧ bgs[k+1]? = some nx ∧
      nx.startTime - FADE_DURATION_MS < t ∧ t < nx.startTime := by
  have h' := h
  unfold OverlayDrawn at h'
  cases hk : currentSceneIndex t bgs with
  | none =>
    rw [hk] at h'
    exact (h' : False).elim
  | some k =>
    rw [hk] at h'
    have h2 : (match bgs[k + 1]? with
        | none => False
        | some nx => t > nx.startTime - FADE_DURATION_MS) := h'
    cases hnx : bgs[k + 1]? with
    | none =>
      rw [hnx] at h2
      exact (h2 : False).elim
    | some nx =>
      rw [hnx] at h2
      have h3 : t > nx.startTime - FADE_DURATION_MS := h2
      refine ⟨k, nx, rfl, hnx, h3, ?_⟩
      have hk1 : k + 1 < bgs.length := by
        by_contra hcon
        rw [List.getElem?_eq_none (by omega)] at hnx
        exact Option.noConfusion hnx
      have hnxs : sceneStart bgs (k + 1) = nx.startTime := by
        unfold sceneStart
        rw [List.getD_eq_getElem?_getD, hnx]
        rfl
      unfold currentSceneIndex at hk
      cases hf : sceneFindIdx t bgs with
      | some k2 =>
        rw [hf] at hk
        simp only [] at hk
        have hk2 : k2 = k := Option.some.inj hk
        subst hk2
        obtain ⟨_, _, hnext⟩ := sceneFindIdx_some_spec t bgs k2 hf
        have := hnext hk1
        rwa [hnxs] at this
      | none =>
        rw [hf] at hk
        have hne : bgs ≠ [] := by
          intro hb
          subst hb
          simp at hk
        have hk0 : k = 0 := by
          cases bgs with
          | nil => simp at hk
          | cons b r =>
            simp only [List.isEmpty_cons, if_neg] at hk
            exact (Option.some.inj hk).symm
        subst hk0
        have ht0 : t < sceneStart bgs 0 := by
          by_contra hcon
          push_neg at hcon
          obtain ⟨k2, hk2, _⟩ := sceneFindIdx_last t bgs hs hcon hne
          rw [hf] at hk2
          exact Option.noConfusion hk2
        have h01 : sceneStart bgs 0 ≤ sceneStart bgs 1 := hs 1 hk1 0 (by omega)
        rw [hnxs] at h01
        linarith

/-- C4: within the fixed 1000 ms fade window the crossfade alpha applied to
the next scene is monotonically non-decreasing in time, equals 0 at the
window start `next.startTime - 1000` and 1 at the window end
`next.startTime`; and whenever the overlay branch runs on a sorted scene
list, the time lies inside the open window (so outside it no overlay is
drawn). -/
theorem crossfade_alpha_spec :
    (∀ s t1 t2 : ℚ, t1 ≤ t2 → fadeAlpha t1 s ≤ fadeAlpha t2 s) ∧
    (∀ s : ℚ, fadeAlpha (s - FADE_DURATION_MS) s = 0 ∧ fadeAlpha s s = 1) ∧
    (∀ (t : ℚ) (bgs : List LoadedImage), ScenesSorted bgs → OverlayDrawn t bgs →
      ∃ k nx, currentSceneIndex t bgs = some k ∧ bgs[k+1]? = some nx ∧
        nx.startTime - FADE_DURATION_MS < t ∧ t < nx.startTime) :=
  ⟨fun _ _ _ h => fadeAlpha_mono h,
   fun s => ⟨fadeAlpha_zero_at_start s, fadeAlpha_one_at_end s⟩,
   fun t bgs hs h => overlayDrawn_in_window t bgs hs h⟩

/-- Witness for C4 at the scene boundary 30000: monotone step inside the
window, exact endpoint values, and the overlay at t = 29500 lies inside
(29000, 30000). -/
theorem crossfade_alpha_spec_witness :
    fadeAlpha 29400 30000 ≤ fadeAlpha 29700 30000 ∧
    fadeAlpha (30000 - FADE_DURATION_MS) 30000 = 0 ∧
    fadeAlpha 30000 30000 = 1 ∧
    (∃ k nx, currentSceneIndex 29500 twoScenes = some k ∧
      twoScenes[k+1]? = some nx ∧
      nx.startTime - FADE_DURATION_MS < 29500 ∧ (29500 : ℚ) < nx.startTime) :=
  ⟨crossfade_alpha_spec.1 30000 29400 29700 (by norm_num),
   (crossfade_alpha_spec.2.1 30000).1,
   (crossfade_alpha_spec.2.1 30000).2,
   crossfade_alpha_spec.2.2 29500 twoScenes (by decide) (by
     show OverlayDrawn 29500 twoScenes
     have hidx : currentSceneIndex 29500 twoScenes = some 0 := by decide
     unfold OverlayDrawn
     rw [hidx]
     show (29500 : ℚ) > 30000 - FADE_DURATION_MS
     norm_num [FADE_DURATION_MS])⟩

/-- C5: evidence that the Ken Burns progress is NOT clamped below at 0.  In
the crossfade pre-roll configuration of `drawFrame` — scenes at 0 and 10000,
duration 20 s, t = 9500 — the overlay branch runs and `drawKenBurns` is
invoked for the next scene with `sceneStart = 10000 > t`; the code's
`Math.min(timeInScene/sceneDuration, 1)` then yields progress -1/20 < 0 and
a zoom factor 19999/20000 < 1, while the claim (and spec) require
`clamp(..., 0, 1)` and scale within [1.0, 1.1]. -/
theorem kenburns_progress_not_clamped :
    OverlayDrawn 9500 [⟨0, ⟨1, true, 800, 600⟩⟩, ⟨10000, ⟨2, true, 800, 600⟩⟩] ∧
    kbProgress 9500 10000 20000 = -(1/20) ∧
    kbProgress 9500 10000 20000 < 0 ∧
    kbScale 9500 10000 20000 < 1 := by
  refine ⟨?_, ?_, ?_, ?_⟩
  · have hidx : currentSceneIndex 9500
        [⟨0, ⟨1, true, 800, 600⟩⟩, ⟨10000, ⟨2, true, 800, 600⟩⟩] = some 0 := by decide
    unfold OverlayDrawn
    rw [hidx]
    show (9500 : ℚ) > 10000 - FADE_DURATION_MS
    norm_num [FADE_DURATION_MS]
  · norm_num [kbProgress, min_def]
  · norm_num [kbProgress, min_def]
  · norm_num [kbScale, kbProgress, easeInOutCubic, min_def]

/-- C7: evidence that cancelling mid-recording still takes the completion
path.  `handleCancelExport` aborts (stopping the recorder and running
`cleanup`), but `recorder.stop()` queues the `stop` event whose handler
(lines 609-630) unconditionally downloads the partial blob, fires
`Export Complete!`, and runs `cleanup` a second time: afterwards the
completion outcome has fired once and `cleanup` ran twice, though the
cancellation toast did fire exactly once. -/
theorem export_cancel_completion_bug :
    recordingState.recorder = RecState.recording ∧
    cancelMidRecordingRun.cancelToastCount = 1 ∧
    cancelMidRecordingRun.completeFired = 1 ∧
    cancelMidRecordingRun.cleanupCount = 2 := by decide

/-- C8: `drawFrame` is deterministic — two runs with identical arguments
(time, duration, scene list, lyric list, surface size, text measurer and
cache contents) emit identical drawing-operation sequences. -/
theorem drawFrame_deterministic (canvasW canvasH t dur : ℚ)
    (bgs : List LoadedImage) (lyrics : List SyncedLyric)
    (measure : String → ℚ) (cache : List (String × List String))
    (run1 run2 : List DrawOp)
    (h1 : run1 = drawFrame canvasW canvasH t dur bgs lyrics measure cache)
    (h2 : run2 = drawFrame canvasW canvasH t dur bgs lyrics measure cache) :
    run1 = run2 :=
  h1.trans h2.symm

/-- Witness for C8 on a concrete configuration. -/
theorem drawFrame_deterministic_witness :
    drawFrame 1280 720 1500 60 twoScenes lyricsB (fun s => (s.length : ℚ)) [] =
      drawFrame 1280 720 1500 60 twoScenes lyricsB (fun s => (s.length : ℚ)) [] :=
  drawFrame_deterministic 1280 720 1500 60 twoScenes lyricsB
    (fun s => (s.length : ℚ)) [] _ _ rfl rfl

lemma joinWords_append_singleton (xs : List String) (w : String) (h : xs ≠ []) :
    joinWords (xs ++ [w]) = joinWords xs ++ " " ++ w := by
  induction xs with
  | nil => exact absurd rfl h
  | cons a as ih =>
    cases as with
    | nil => rfl
    | cons b bs =>
      have ihh := ih (List.cons_ne_nil b bs)
      calc joinWords ((a :: b :: bs) ++ [w])
          = a ++ " " ++ joinWords ((b :: bs) ++ [w]) := rfl
        _ = a ++ " " ++ (joinWords (b :: bs) ++ " " ++ w) := by rw [ihh]
        _ = joinWords (a :: b :: bs) ++ " " ++ w := by
            rw [show joinWords (a :: b :: bs) = a ++ " " ++ joinWords (b :: bs) from rfl]
            simp [String.append_assoc]

lemma joinWords_ne_empty (xs : List String) (hne : xs ≠ [])
    (h : ∀ x ∈ xs, x ≠ "") : joinWords xs ≠ "" := by
  cases xs with
  | nil => exact absurd rfl hne
  | cons a as =>
    cases as with
    | nil => exact h a (by simp)
    | cons b bs =>
      intro hc
      have hl := congrArg String.length hc
      rw [show joinWords (a :: b :: bs) = a ++ " " ++ joinWords (b :: bs) from rfl,
          String.length_append, String.length_append] at hl
      rw [show ("" : String).length = 0 from rfl] at hl
      rw [show (" " : String).length = 1 from rfl] at hl
      omega

lemma wrapStep_push (m : String → ℚ) (W : ℚ) (lines : List String)
    (cur w : String) (h1 : cur ≠ "") (h2 : m (cur ++ " " ++ w) > W) :
    wrapStep m W (lines, cur) w = (lines ++ [cur], w) := by
  unfold wrapStep
  dsimp only
  rw [if_pos h1, if_pos ⟨h2, h1⟩]

lemma wrapStep_extend (m : String → ℚ) (W : ℚ) (lines : List String)
    (cur w : String) (h1 : cur ≠ "") (h2 : ¬ m (cur ++ " " ++ w) > W) :
    wrapStep m W (lines, cur) w = (lines, cur ++ " " ++ w) := by
  unfold wrapStep
  dsimp only
  rw [if_pos h1, if_neg (fun hx => h2 hx.1)]

lemma wrapStep_empty (m : String → ℚ) (W : ℚ) (lines : List String)
    (cur w : String) (h1 : cur = "") :
    wrapStep m W (lines, cur) w = (lines, w) := by
  subst h1
  unfold wrapStep
  dsimp only
  rw [if_neg (fun hx : ("" : String) ≠ "" => hx rfl),
      if_neg (fun hx => hx.2 rfl)]

lemma wrapStepSeq_push (m : String → ℚ) (W : ℚ) (lines : List (List String))
    (cur : List String) (w : String) (h1 : joinWords cur ≠ "")
    (h2 : m (joinWords (cur ++ [w])) > W) :
    wrapStepSeq m W (lines, cur) w = (lines ++ [cur], [w]) := by
  unfold wrapStepSeq
  dsimp only
  rw [if_pos h1, if_pos ⟨h2, h1⟩]

lemma wrapStepSeq_extend (m : String → ℚ) (W : ℚ) (lines : List (List String))
    (cur : List String) (w : String) (h1 : joinWords cur ≠ "")
    (h2 : ¬ m (joinWords (cur ++ [w])) > W) :
    wrapStepSeq m W (lines, cur) w = (lines, cur ++ [w]) := by
  unfold wrapStepSeq
  dsimp only
  rw [if_pos h1, if_neg (fun hx => h2 hx.1)]

lemma wrapStepSeq_empty (m : String → ℚ) (W : ℚ) (lines : List (List String))
    (cur : List String) (w : String) (h1 : joinWords cur = "") :
    wrapStepSeq m W (lines, cur) w = (lines, [w]) := by
  unfold wrapStepSeq
  dsimp only
  rw [if_neg (fun hx : joinWords cur ≠ "" => hx h1),
      if_neg (fun hx => hx.2 h1)]

/-- One wrap step commutes with the word-sequence view: the string state is
the `joinWords` image of the word-list state. -/
lemma wrapStep_corr (m : String → ℚ) (W : ℚ) (linesW : List (List String))
    (curW : List String) (w : String) :
    wrapStep m W (linesW.map joinWords, joinWords curW) w =
      ((wrapStepSeq m W (linesW, curW) w).1.map joinWords,
       joinWords (wrapStepSeq m W (linesW, curW) w).2) := by
  by_cases hc : joinWords curW ≠ ""
  · have hcw : curW ≠ [] := by
      intro hn
      rw [hn] at hc
      exact hc rfl
    have htest : joinWords (curW ++ [w]) = joinWords curW ++ " " ++ w :=
      joinWords_append_singleton curW w hcw
    by_cases hm : m (joinWords (curW ++ [w])) > W
    · rw [wrapStep_push m W _ _ w hc (by rw [← htest]; exact hm),
          wrapStepSeq_push m W linesW curW w hc hm]
      simp only [List.map_append]
      rfl
    · rw [wrapStep_extend m W _ _ w hc (by rw [← htest]; exact hm),
          wrapStepSeq_extend m W linesW curW w hc hm]
      rw [htest]
  · have hc0 : joinWords curW = "" := not_ne_iff.mp hc
    rw [wrapStep_empty m W _ _ w hc0, wrapStepSeq_empty m W linesW curW w hc0]
    rfl

/-- The whole fold commutes with the word-sequence view. -/
lemma wrap_foldl_corr (m : String → ℚ) (W : ℚ) :
    ∀ (ws : List String) (linesW : List (List String)) (curW : List String),
      ws.foldl (wrapStep m W) (linesW.map joinWords, joinWords curW) =
        ((ws.foldl (wrapStepSeq m W) (linesW, curW)).1.map joinWords,
         joinWords (ws.foldl (wrapStepSeq m W) (linesW, curW)).2) := by
  intro ws
  induction ws with
  | nil => intro _ _; rfl
  | cons w ws ih =>
    intro linesW curW
    rw [List.foldl_cons, List.foldl_cons, wrapStep_corr]
    have := ih (wrapStepSeq m W (linesW, curW) w).1 (wrapStepSeq m W (linesW, curW) w).2
    simpa [Prod.mk.eta] using this

/-- The wrap of `drawFrame` is the `joinWords` image of its word-sequence
view. -/
lemma wrapWords_eq_seq (m : String → ℚ) (W : ℚ) (ws : List String) :
    wrapWords m W ws = (wrapWordsSeq m W ws).map joinWords := by
  have h : ws.foldl (wrapStep m W) ([], "") =
      ((ws.foldl (wrapStepSeq m W) ([], [])).1.map joinWords,
       joinWords (ws.foldl (wrapStepSeq m W) ([], [])).2) :=
    wrap_foldl_corr m W ws [] []
  show (let st := ws.foldl (wrapStep m W) ([], "")
        if st.2 ≠ "" then st.1 ++ [st.2] else st.1) =
    (let st := ws.foldl (wrapStepSeq m W) ([], [])
     if joinWords st.2 ≠ "" then st.1 ++ [st.2] else st.1).map joinWords
  rw [h]
  show (if joinWords (ws.foldl (wrapStepSeq m W) ([], [])).2 ≠ "" then
          (ws.foldl (wrapStepSeq m W) ([], [])).1.map joinWords ++
            [joinWords (ws.foldl (wrapStepSeq m W) ([], [])).2]
        else (ws.foldl (wrapStepSeq m W) ([], [])).1.map joinWords) =
    (if joinWords (ws.foldl (wrapStepSeq m W) ([], [])).2 ≠ "" then
       (ws.foldl (wrapStepSeq m W) ([], [])).1 ++
         [(ws.foldl (wrapStepSeq m W) ([], [])).2]
     else (ws.foldl (wrapStepSeq m W) ([], [])).1).map joinWords
  split_ifs with hc
  · simp [List.map_append]
  · rfl

/-- One wrap step appends exactly the consumed word to the accumulated word
sequence, provided the accumulated words are nonempty strings. -/
lemma wrapStepSeq_flatten (m : String → ℚ) (W : ℚ)
    (linesW : List (List String)) (curW : List String) (w : String)
    (hw : w ≠ "") (hcur : ∀ x ∈ curW, x ≠ "") :
    ((wrapStepSeq m W (linesW, curW) w).1.flatten ++
      (wrapStepSeq m W (linesW, curW) w).2 = linesW.flatten ++ curW ++ [w]) ∧
    (∀ x ∈ (wrapStepSeq m W (linesW, curW) w).2, x ≠ "") := by
  by_cases hc : joinWords curW ≠ ""
  · by_cases hm : m (joinWords (curW ++ [w])) > W
    · rw [wrapStepSeq_push m W linesW curW w hc hm]
      constructor
      · simp [List.flatten_append, List.append_assoc]
      · intro x hx
        simp at hx
        subst hx
        exact hw
    · rw [wrapStepSeq_extend m W linesW curW w hc hm]
      constructor
      · simp [List.append_assoc]
      · intro x hx
        rcases List.mem_append.mp hx with h1 | h2
        · exact hcur x h1
        · simp at h2
          subst h2
          exact hw
  · have hc0 : joinWords curW = "" := not_ne_iff.mp hc
    have hcur0 : curW = [] := by
      by_contra hne
      exact (joinWords_ne_empty curW hne hcur) hc0
    subst hcur0
    rw [wrapStepSeq_empty m W linesW [] w rfl]
    constructor
    · simp
    · intro x hx
      simp at hx
      subst hx
      exact hw

/-- The whole fold appends the consumed words, preserving each exactly once
in order. -/
lemma wrapSeq_foldl_flatten (m : String → ℚ) (W : ℚ) :
    ∀ (ws : List String) (linesW : List (List String)) (curW : List String),
      (∀ x ∈ ws, x ≠ "") → (∀ x ∈ curW, x ≠ "") →
      ((ws.foldl (wrapStepSeq m W) (linesW, curW)).1.flatten ++
        (ws.foldl (wrapStepSeq m W) (linesW, curW)).2 =
          linesW.flatten ++ curW ++ ws) ∧
      (∀ x ∈ (ws.foldl (wrapStepSeq m W) (linesW, curW)).2, x ≠ "") := by
  intro ws
  induction ws with
  | nil =>
    intro linesW curW _ hcur
    exact ⟨by simp, hcur⟩
  | cons w ws ih =>
    intro linesW curW hws hcur
    have hw : w ≠ "" := hws w (by simp)
    have hws2 : ∀ x ∈ ws, x ≠ "" := fun x hx => hws x (by simp [hx])
    obtain ⟨hstep, hstepcur⟩ := wrapStepSeq_flatten m W linesW curW w hw hcur
    rw [List.foldl_cons]
    obtain ⟨h1, h2⟩ :=
      ih (wrapStepSeq m W (linesW, curW) w).1 (wrapStepSeq m W (linesW, curW) w).2
        hws2 hstepcur
    rw [Prod.mk.eta] at h1 h2
    refine ⟨?_, h2⟩
    rw [h1, hstep]
    simp [List.append_assoc]

/-- C10 amended: for every word list whose words are all nonempty (no
leading, trailing or consecutive spaces in the line), the wrap of
`drawFrame` preserves the word sequence exactly — the display lines are the
single-space joins of consecutive word groups whose concatenation is the
original word list, so no word is dropped, duplicated or reordered at any
surface width. -/
theorem wrap_preserves_words (m : String → ℚ) (W : ℚ) (ws : List String)
    (h : ∀ x ∈ ws, x ≠ "") :
    wrapWords m W ws = (wrapWordsSeq m W ws).map joinWords ∧
    (wrapWordsSeq m W ws).flatten = ws := by
  refine ⟨wrapWords_eq_seq m W ws, ?_⟩
  unfold wrapWordsSeq
  obtain ⟨hf, hcur⟩ := wrapSeq_foldl_flatten m W ws [] [] h (by simp)
  dsimp only
  by_cases hc : joinWords (ws.foldl (wrapStepSeq m W) ([], [])).2 ≠ ""
  · rw [if_pos hc, List.flatten_append]
    simpa using hf
  · rw [if_neg hc]
    push_neg at hc
    have h2 : (ws.foldl (wrapStepSeq m W) ([], [])).2 = [] := by
      by_contra hne
      exact (joinWords_ne_empty _ hne hcur) hc
    rw [h2] at hf
    simpa using hf

/-- Witness for the amended C10 on "Hello world" with a width that forces a
line break. -/
theorem wrap_preserves_words_witness :
    wrapWords (fun s => (s.length : ℚ)) 5 ["Hello", "world"] =
      (wrapWordsSeq (fun s => (s.length : ℚ)) 5 ["Hello", "world"]).map joinWords ∧
    (wrapWordsSeq (fun s => (s.length : ℚ)) 5 ["Hello", "world"]).flatten =
      ["Hello", "world"] :=
  wrap_preserves_words (fun s => (s.length : ℚ)) 5 ["Hello", "world"] (by decide)

/-- C10 counterexample: the lyric line " x" splits (JS `split(' ')`) into
["", "x"]; the wrap loop drops the leading empty word, so re-joining the
display lines with single spaces yields "x", not the original word
sequence ["", "x"] (whose join is " x"). -/
theorem wrap_drops_empty_word_cex :
    wrapWords (fun _ => 0) 0 ["", "x"] = ["x"] ∧
    (wrapWordsSeq (fun _ => 0) 0 ["", "x"]).flatten ≠ ["", "x"] ∧
    joinWords (wrapWords (fun _ => 0) 0 ["", "x"]) ≠ joinWords ["", "x"] := by
  decide

end Studio
